import Mathlib

/-!
Shallow embedding of the Apriori mining core of the AprioriGO repository
(package `algorithm`: `FindFrequentItemsets`, `generateCandidates`,
`GenerateAssociationRules`, and the helpers `containsItem`, `isSubset`,
`slicesEqual`, `generateAllSubsets`, `difference` from `main.go`).

Items are Go strings, modelled as Lean `String` with the lexicographic
order.  Go `float64` values are modelled by `GF`: exact rationals plus the
special values NaN, +Inf and -Inf, with Go/IEEE-754 rules for division by
zero, comparisons and equality involving the special values (rounding of
finite results and negative zero are not modelled; every comparison proved
here is either exact or has a wide margin).
-/

/-- Model of the Go `float64` values that the mining core can produce:
an exact rational, NaN, +Inf or -Inf. -/
inductive GF where
  | nan : GF
  | inf : GF
  | ninf : GF
  | fin : ℚ → GF
deriving DecidableEq

namespace GF

/-- Go float64 division (`a / b`), with IEEE-754 special cases:
`0/0 = NaN`, `x/0 = ±Inf` for finite nonzero `x`, `x/±Inf = 0`,
`±Inf/±Inf = NaN`; NaN propagates. -/
def div : GF → GF → GF
  | nan, _ => nan
  | _, nan => nan
  | inf, inf => nan
  | inf, ninf => nan
  | ninf, inf => nan
  | ninf, ninf => nan
  | inf, fin b => if b < 0 then ninf else inf
  | ninf, fin b => if b < 0 then inf else ninf
  | fin _, inf => fin 0
  | fin _, ninf => fin 0
  | fin a, fin b =>
      if b = 0 then (if a = 0 then nan else if 0 < a then inf else ninf)
      else fin (a / b)

/-- Go float64 subtraction (`a - b`); NaN propagates, `Inf - Inf = NaN`. -/
def sub : GF → GF → GF
  | nan, _ => nan
  | _, nan => nan
  | inf, inf => nan
  | ninf, ninf => nan
  | inf, _ => inf
  | ninf, _ => ninf
  | fin _, inf => ninf
  | fin _, ninf => inf
  | fin a, fin b => fin (a - b)

/-- Go float64 multiplication; NaN propagates, `0 * Inf = NaN`. -/
def mul : GF → GF → GF
  | nan, _ => nan
  | _, nan => nan
  | inf, inf => inf
  | inf, ninf => ninf
  | ninf, inf => ninf
  | ninf, ninf => inf
  | inf, fin b => if b = 0 then nan else if 0 < b then inf else ninf
  | fin a, inf => if a = 0 then nan else if 0 < a then inf else ninf
  | ninf, fin b => if b = 0 then nan else if 0 < b then ninf else inf
  | fin a, ninf => if a = 0 then nan else if 0 < a then ninf else inf
  | fin a, fin b => fin (a * b)

/-- Go float64 `>=`: any comparison with NaN is `false`. -/
def ge : GF → GF → Bool
  | nan, _ => false
  | _, nan => false
  | inf, _ => true
  | _, inf => false
  | _, ninf => true
  | ninf, _ => false
  | fin a, fin b => decide (b ≤ a)

/-- Go float64 `==`: `NaN == x` is `false` for every `x`. -/
def beq : GF → GF → Bool
  | nan, _ => false
  | _, nan => false
  | inf, inf => true
  | ninf, ninf => true
  | fin a, fin b => decide (a = b)
  | _, _ => false

end GF

/-- Lexicographic strict comparison of character lists by code point,
mirroring Go's byte-wise string comparison. -/
def chLt : List Char → List Char → Bool
  | [], [] => false
  | [], _ :: _ => true
  | _ :: _, [] => false
  | a :: as, b :: bs =>
      if a.toNat < b.toNat then true
      else if b.toNat < a.toNat then false
      else chLt as bs

/-- Go's `<` on strings. -/
def strLt (a b : String) : Bool :=
  chLt a.data b.data

/-- Go's `<=` on strings (total order: `a <= b` iff not `b < a`). -/
def strLe (a b : String) : Bool :=
  ! strLt b a

/-- `strLt` as a proposition. -/
def SLt (a b : String) : Prop :=
  strLt a b = true

/-- `strLe` as a proposition. -/
def SLe (a b : String) : Prop :=
  strLe a b = true

instance : DecidableRel SLt := fun a b => instDecidableEqBool (strLt a b) true

instance : DecidableRel SLe := fun a b => instDecidableEqBool (strLe a b) true

/-- `models.Transaction`: a Go `[]string`. -/
abbrev Transaction := List String

/-- `models.FrequentItemset`. -/
structure FrequentItemset where
  Items : List String
  Support : GF
  Length : Nat
deriving DecidableEq

/-- `models.AssociationRule`. -/
structure AssociationRule where
  Antecedent : List String
  Consequent : List String
  Support : GF
  Confidence : GF
  Lift : GF
  LeverageMetric : GF
  ConvictionMetric : GF
deriving DecidableEq

/-- `models.Dataset`.  The `ItemsMap` field (`map[string]bool`) is carried
as a membership function; the mining core never reads it. -/
structure Dataset where
  Transactions : List Transaction
  UniqueItems : List String
  ItemsMap : String → Bool

/-- The Dataset invariants of the spec (§3): the universe is strictly
sorted with no duplicates, and every item of every transaction appears in
the universe. -/
def DatasetInv (d : Dataset) : Prop :=
  d.UniqueItems.Sorted SLt ∧
    ∀ t ∈ d.Transactions, ∀ x ∈ t, x ∈ d.UniqueItems

/-- `containsItem`: linear scan of a transaction for an item. -/
def containsItem (transaction : Transaction) (item : String) : Bool :=
  transaction.any (fun t => t == item)

/-- `isSubset`: every element of `items` occurs in `transaction`. -/
def isSubset (items : List String) (transaction : Transaction) : Bool :=
  items.all (fun item => containsItem transaction item)

/-- `slicesEqual`: element-wise equality of two string slices. -/
def slicesEqual (a b : List String) : Bool :=
  a == b

/-- Go `sort.Strings`: sort a string slice in ascending lexicographic
order.  A sorted list of strings is determined by its multiset (equal keys
are identical strings), so any correct sorting algorithm is extensionally
the same function; we use insertion sort, which reduces in the kernel. -/
def sortStrings (l : List String) : List String :=
  l.insertionSort SLe

/-- The support computed for a single universe item at level 1 of
`FindFrequentItemsets` (`float64(count) / transactionCount`): when there
are zero transactions this is `0.0 / 0.0 = NaN`. -/
def item1Support (d : Dataset) (item : String) : GF :=
  GF.div (GF.fin ((d.Transactions.filter (fun t => containsItem t item)).length : ℚ))
    (GF.fin ((d.Transactions.length : ℚ)))

/-- The support computed for a candidate itemset at level `k ≥ 2` of
`FindFrequentItemsets`. -/
def candSupport (d : Dataset) (items : List String) : GF :=
  GF.div (GF.fin ((d.Transactions.filter (fun t => isSubset items t)).length : ℚ))
    (GF.fin ((d.Transactions.length : ℚ)))

/-- The frequent 1-itemsets `L1` of `FindFrequentItemsets` (lines 17-34):
one entry per universe item whose support passes the threshold. -/
def level1 (d : Dataset) (minSupport : GF) : List FrequentItemset :=
  d.UniqueItems.filterMap fun item =>
    if GF.ge (item1Support d item) minSupport then
      some { Items := [item], Support := item1Support d item, Length := 1 }
    else none

/-- The ordered pairs `(itemsets[i], itemsets[j])` with `i < j` enumerated
by the nested loops of `generateCandidates`. -/
def candPairs : List FrequentItemset → List (FrequentItemset × FrequentItemset)
  | [] => []
  | x :: xs => (xs.map fun y => (x, y)) ++ candPairs xs

/-- The joined candidate slice of `generateCandidates` (lines 92-96):
a `k`-slot slice holding `itemsets[i].Items` (padded with the zero value
`""` if shorter, truncated if longer, mirroring Go `copy`) with slot
`k-1` overwritten by `itemsets[j].Items[k-2]`, then sorted. -/
def joinCandidate (k : Nat) (xi xj : List String) : List String :=
  sortStrings ((xi.take (k - 1) ++ List.replicate (k - 1 - xi.length) "") ++ [xj.getD (k - 2) ""])

/-- The prune step of `generateCandidates` (lines 98-124): every size
`k-1` subset of the candidate, obtained by dropping one position, must be
the `Items` of some itemset in the previous level. -/
def pruneOk (itemsets : List FrequentItemset) (k : Nat) (candidate : List String) : Bool :=
  (List.range k).all fun l =>
    itemsets.any fun itemset => slicesEqual itemset.Items (candidate.eraseIdx l)

/-- The loop body of `generateCandidates` for one pair (lines 78-129):
the join guard (equal-prefix rule, only checked for `k > 2`), the joined
candidate, and the prune guard (only checked for `k > 2`).  The `Support`
field of a candidate is left at the Go zero value `0.0`. -/
def candFilter (itemsets : List FrequentItemset) (k : Nat)
    (p : FrequentItemset × FrequentItemset) : Option FrequentItemset :=
  if k > 2 ∧ ¬ (p.1.Items.take (k - 2) = p.2.Items.take (k - 2)) then none
  else if k > 2 ∧ ¬ (pruneOk itemsets k (joinCandidate k p.1.Items p.2.Items) = true) then
    none
  else some { Items := joinCandidate k p.1.Items p.2.Items, Support := GF.fin 0, Length := k }

/-- `generateCandidates`: join step (equal-prefix rule for `k > 2`) plus
prune step (downward-closure check for `k > 2`) over all index pairs
`i < j`. -/
def generateCandidates (itemsets : List FrequentItemset) (k : Nat) : List FrequentItemset :=
  (candPairs itemsets).filterMap (candFilter itemsets k)

/-- One pass of the level loop body of `FindFrequentItemsets`
(lines 40-59): generate candidates from `L(k-1)`, count supports, keep
those passing the threshold. -/
def levelStep (d : Dataset) (minSupport : GF) (Lk1 : List FrequentItemset) (k : Nat) :
    List FrequentItemset :=
  (generateCandidates Lk1 k).filterMap fun candidate =>
    if GF.ge (candSupport d candidate.Items) minSupport then
      some { Items := candidate.Items, Support := candSupport d candidate.Items, Length := k }
    else none

/-- The level loop of `FindFrequentItemsets` (lines 39-67), with the
remaining number of levels as fuel: at level `k` compute `Lk`; stop if it
is empty, otherwise emit it and continue from it. -/
def minerAux (d : Dataset) (minSupport : GF) : Nat → Nat → List FrequentItemset →
    List FrequentItemset
  | 0, _, _ => []
  | fuel + 1, k, Lk1 =>
      let Lk := levelStep d minSupport Lk1 k
      if Lk.isEmpty then []
      else Lk ++ minerAux d minSupport fuel (k + 1) Lk

/-- `FindFrequentItemsets` (algorithm package, lines 12-70).  `maxLen` is
a Go `int`; the loop runs for `k = 2 .. maxLen`. -/
def FindFrequentItemsets (dataset : Dataset) (minSupport : GF) (maxLen : Int) :
    List FrequentItemset :=
  level1 dataset minSupport ++
    minerAux dataset minSupport (maxLen - 1).toNat 2 (level1 dataset minSupport)

/-- `generateAllSubsets` helper: the subset of `set` selected by the bits
of mask `i`, in position order (Go: `if i & (1 << j) > 0`). -/
def maskSubset (set : List String) (i : Nat) : List String :=
  (List.range set.length).filterMap fun j =>
    if i.testBit j then some (set.getD j "") else none

/-- `generateAllSubsets`: all non-empty subsets of `set`, one per bitmask
`i = 1 .. 2^n - 1`. -/
def generateAllSubsets (set : List String) : List (List String) :=
  (List.range' 1 (2 ^ set.length - 1)).map (maskSubset set)

/-- `difference`: the elements of `a` that are not in `b`, in order. -/
def difference (a b : List String) : List String :=
  a.filter fun item => ¬ b.contains item

/-- The comma-joined map key of an itemset (`strings.Join(items, ",")`). -/
def joinKey (items : List String) : String :=
  String.intercalate "," items

/-- The `itemsetMap` of `GenerateAssociationRules` (lines 139-144),
as the association list of (key, support) insertions in order. -/
def buildMap (itemsets : List FrequentItemset) : List (String × GF) :=
  itemsets.map fun itemset => (joinKey itemset.Items, itemset.Support)

/-- Go map lookup on the insertion list: the last insertion for a key
wins. -/
def mapLookup (m : List (String × GF)) (key : String) : Option GF :=
  (m.reverse.find? (fun p => p.1 == key)).map Prod.snd

/-- The rule record built at lines 192-200 of `GenerateAssociationRules`
from an itemset support `s`, an antecedent support `asup` and a consequent
support `csup`: confidence, lift, leverage and conviction as computed at
lines 172-190, with the conviction special case for `csup == 1.0` or
`confidence == 1.0`. -/
def mkRule (antecedent consequent : List String) (s asup csup : GF) : AssociationRule :=
  { Antecedent := antecedent
    Consequent := consequent
    Support := s
    Confidence := GF.div s asup
    Lift := GF.div (GF.div s asup) csup
    LeverageMetric := GF.sub s (GF.mul asup csup)
    ConvictionMetric :=
      if GF.beq csup (GF.fin 1) || GF.beq (GF.div s asup) (GF.fin 1)
      then GF.inf
      else GF.div (GF.sub (GF.fin 1) csup) (GF.sub (GF.fin 1) (GF.div s asup)) }

/-- The body of the rule loop of `GenerateAssociationRules` for one
itemset (lines 147-203): skip itemsets of length ≤ 1, enumerate antecedent
masks, skip empty/full antecedents, look up supports, filter by
confidence, and emit the rule with its metrics. -/
def rulesForItemset (m : List (String × GF)) (minConfidence : GF) (itemset : FrequentItemset) :
    List AssociationRule :=
  if itemset.Length ≤ 1 then []
  else
    (generateAllSubsets itemset.Items).filterMap fun antecedent =>
      if antecedent.length = 0 ∨ antecedent.length = itemset.Items.length then none
      else
        match mapLookup m (joinKey antecedent) with
        | none => none
        | some antecedentSupport =>
            if GF.ge (GF.div itemset.Support antecedentSupport) minConfidence then
              match mapLookup m (joinKey (difference itemset.Items antecedent)) with
              | none => none
              | some consequentSupport =>
                  some (mkRule antecedent (difference itemset.Items antecedent)
                    itemset.Support antecedentSupport consequentSupport)
            else none

/-- `GenerateAssociationRules` (lines 137-206). -/
def GenerateAssociationRules (itemsets : List FrequentItemset) (minConfidence : GF) :
    List AssociationRule :=
  (itemsets.map (rulesForItemset (buildMap itemsets) minConfidence)).flatten

/-- The worked example dataset of the spec (§8): four transactions over
the universe bread, butter, milk. -/
def exDataset : Dataset :=
  { Transactions := [["bread", "milk"], ["bread", "butter"], ["bread", "milk", "butter"], ["milk"]]
    UniqueItems := ["bread", "butter", "milk"]
    ItemsMap := fun _ => false }

/-- A dataset with zero transactions and a one-item universe. -/
def emptyTxDataset : Dataset :=
  { Transactions := []
    UniqueItems := ["a"]
    ItemsMap := fun _ => false }

/-- A dataset with one transaction containing the single universe item. -/
def oneTxDataset : Dataset :=
  { Transactions := [["a"]]
    UniqueItems := ["a"]
    ItemsMap := fun _ => false }

/-- The concrete rule bread→butter of the example run, used as a witness
input. -/
def exRule : AssociationRule :=
  { Antecedent := ["bread"], Consequent := ["butter"], Support := GF.fin (1 / 2),
    Confidence := GF.fin (2 / 3), Lift := GF.fin (4 / 3),
    LeverageMetric := GF.fin (1 / 8), ConvictionMetric := GF.fin (3 / 2) }

/-- A small concrete frequent-itemset list used to instantiate
hypothetical-input theorems about `GenerateAssociationRules`. -/
def sampleItemsets : List FrequentItemset :=
  [{ Items := ["a"], Support := GF.fin (1 / 2), Length := 1 },
   { Items := ["b"], Support := GF.fin 1, Length := 1 },
   { Items := ["a", "b"], Support := GF.fin (1 / 2), Length := 2 }]

/-! ## Basic lemmas about the float model -/

theorem GF.ge_nan_left (x : GF) : GF.ge GF.nan x = false := by
  cases x <;> rfl

theorem GF.div_fin_fin (a b : ℚ) (hb : b ≠ 0) :
    GF.div (GF.fin a) (GF.fin b) = GF.fin (a / b) := by
  simp [GF.div, hb]

theorem GF.div_zero_zero : GF.div (GF.fin 0) (GF.fin 0) = GF.nan := by
  simp [GF.div]

theorem GF.ge_fin_fin (a b : ℚ) : GF.ge (GF.fin a) (GF.fin b) = decide (b ≤ a) :=
  rfl

/-! ## Basic lemmas about the miner -/

theorem minerAux_nil (d : Dataset) (ms : GF) (fuel k : Nat) :
    minerAux d ms fuel k [] = [] := by
  cases fuel <;> rfl

theorem item1Support_of_nil (d : Dataset) (item : String) (h : d.Transactions = []) :
    item1Support d item = GF.nan := by
  unfold item1Support
  rw [h]
  simp [GF.div]

theorem item1Support_of_ne_nil (d : Dataset) (item : String) (h : d.Transactions.length ≠ 0) :
    item1Support d item =
      GF.fin (((d.Transactions.filter (fun t => containsItem t item)).length : ℚ) /
        (d.Transactions.length : ℚ)) := by
  unfold item1Support
  rw [GF.div_fin_fin]
  exact_mod_cast h

theorem level1_eq_nil_of_one_lt (d : Dataset) (q : ℚ) (hq : 1 < q) :
    level1 d (GF.fin q) = [] := by
  unfold level1
  rw [List.filterMap_eq_nil_iff]
  intro item _
  have hfalse : GF.ge (item1Support d item) (GF.fin q) = false := by
    rcases Nat.eq_zero_or_pos d.Transactions.length with h0 | hpos
    · rw [item1Support_of_nil d item (List.length_eq_zero.mp h0)]
      exact GF.ge_nan_left _
    · rw [item1Support_of_ne_nil d item (Nat.pos_iff_ne_zero.mp hpos)]
      rw [GF.ge_fin_fin, decide_eq_false_iff_not]
      intro hle
      have hcount : ((d.Transactions.filter (fun t => containsItem t item)).length : ℚ) ≤
          (d.Transactions.length : ℚ) := by
        exact_mod_cast List.length_filter_le _ _
      have hn : (0 : ℚ) < (d.Transactions.length : ℚ) := by exact_mod_cast hpos
      have : ((d.Transactions.filter (fun t => containsItem t item)).length : ℚ) /
          (d.Transactions.length : ℚ) ≤ 1 := by
        rw [div_le_one hn]
        exact hcount
      linarith
  rw [hfalse]
  rfl

theorem findFrequent_eq_nil_of_one_lt (d : Dataset) (q : ℚ) (ml : Int) (hq : 1 < q) :
    FindFrequentItemsets d (GF.fin q) ml = [] := by
  unfold FindFrequentItemsets
  rw [level1_eq_nil_of_one_lt d q hq, minerAux_nil]
  rfl

theorem minerAux_congr (T : List Transaction) (U : List String) (f g : String → Bool)
    (ms : GF) : ∀ fuel k L,
    minerAux ⟨T, U, f⟩ ms fuel k L = minerAux ⟨T, U, g⟩ ms fuel k L := by
  intro fuel
  induction fuel with
  | zero => intro k L; rfl
  | succ n ih =>
      intro k L
      simp only [minerAux]
      rw [show levelStep ⟨T, U, f⟩ ms L k = levelStep ⟨T, U, g⟩ ms L k from rfl, ih]

/-! ## Claims C3, C4, C5, C8 -/

unseal Rat.mul Rat.inv Rat.add Rat.sub in
/-- C3 counterexample: the claim states that the level-2 candidate
{milk,butter} is counted with support 0 on the example dataset; in fact
transaction 3 = {bread,milk,butter} contains it, so its counted support is
1/4, not 0 (it is still dropped, as 1/4 < 1/2). -/
theorem claim_C3_counterexample :
    candSupport exDataset ["butter", "milk"] = GF.fin (1 / 4) ∧
      GF.fin (1 / 4) ≠ GF.fin 0 := by
  decide

unseal Rat.mul Rat.inv Rat.add Rat.sub in
/-- C3 (amended: the candidate {milk,butter} is counted with support 0.25,
not 0; it is dropped either way): on the example dataset with
minSupport = 0.5 and maxLen = 2, the miner returns exactly
bread (0.75), butter (0.5, exactly at threshold), milk (0.75),
{bread,butter} (0.5) and {bread,milk} (0.5); the level-2 candidates are
{bread,butter}, {bread,milk}, {butter,milk} with {butter,milk} counted at
support 1/4 and dropped; and with minConfidence = 0.6 the emitted rules
are exactly bread→butter (conf 2/3), butter→bread (conf 1, conviction
+Inf), bread→milk (conf 2/3) and milk→bread (conf 2/3). -/
theorem claim_C3_example_run :
    FindFrequentItemsets exDataset (GF.fin (1 / 2)) 2 =
      [{ Items := ["bread"], Support := GF.fin (3 / 4), Length := 1 },
       { Items := ["butter"], Support := GF.fin (1 / 2), Length := 1 },
       { Items := ["milk"], Support := GF.fin (3 / 4), Length := 1 },
       { Items := ["bread", "butter"], Support := GF.fin (1 / 2), Length := 2 },
       { Items := ["bread", "milk"], Support := GF.fin (1 / 2), Length := 2 }] ∧
    (generateCandidates (level1 exDataset (GF.fin (1 / 2))) 2).map FrequentItemset.Items =
      [["bread", "butter"], ["bread", "milk"], ["butter", "milk"]] ∧
    candSupport exDataset ["butter", "milk"] = GF.fin (1 / 4) ∧
    GenerateAssociationRules (FindFrequentItemsets exDataset (GF.fin (1 / 2)) 2)
        (GF.fin (3 / 5)) =
      [{ Antecedent := ["bread"], Consequent := ["butter"], Support := GF.fin (1 / 2),
         Confidence := GF.fin (2 / 3), Lift := GF.fin (4 / 3), LeverageMetric := GF.fin (1 / 8),
         ConvictionMetric := GF.fin (3 / 2) },
       { Antecedent := ["butter"], Consequent := ["bread"], Support := GF.fin (1 / 2),
         Confidence := GF.fin 1, Lift := GF.fin (4 / 3), LeverageMetric := GF.fin (1 / 8),
         ConvictionMetric := GF.inf },
       { Antecedent := ["bread"], Consequent := ["milk"], Support := GF.fin (1 / 2),
         Confidence := GF.fin (2 / 3), Lift := GF.fin (8 / 9), LeverageMetric := GF.fin (-1 / 16),
         ConvictionMetric := GF.fin (3 / 4) },
       { Antecedent := ["milk"], Consequent := ["bread"], Support := GF.fin (1 / 2),
         Confidence := GF.fin (2 / 3), Lift := GF.fin (8 / 9), LeverageMetric := GF.fin (-1 / 16),
         ConvictionMetric := GF.fin (3 / 4) }] := by
  refine ⟨by decide, by decide, by decide, by decide⟩

/-- C5 counterexample: on a dataset with zero transactions the support
computed for a universe item at level 1 is `0.0 / 0.0 = NaN`, not 0 as the
claim states. -/
theorem claim_C5_counterexample :
    item1Support emptyTxDataset "a" = GF.nan ∧ GF.nan ≠ GF.fin 0 := by
  constructor
  · decide
  · decide

/-- C5 (amended: with zero transactions every computed support is NaN, not
0; since every comparison with NaN is false, no itemset passes any
threshold and the returned list is empty): for every dataset with zero
transactions, every level-1 support and every candidate support computed
by `FindFrequentItemsets` is NaN, and the returned list is empty for every
minSupport and maxLen. -/
theorem claim_C5_zero_transactions (d : Dataset) (ms : GF) (ml : Int)
    (h : d.Transactions = []) :
    (∀ item, item1Support d item = GF.nan) ∧
      (∀ items, candSupport d items = GF.nan) ∧
      FindFrequentItemsets d ms ml = [] := by
  have h1 : ∀ item, item1Support d item = GF.nan := fun item => item1Support_of_nil d item h
  have h2 : ∀ items, candSupport d items = GF.nan := by
    intro items
    unfold candSupport
    rw [h]
    simp [GF.div]
  have hlevel1 : level1 d ms = [] := by
    unfold level1
    rw [List.filterMap_eq_nil_iff]
    intro item _
    rw [h1 item, GF.ge_nan_left]
    rfl
  refine ⟨h1, h2, ?_⟩
  unfold FindFrequentItemsets
  rw [hlevel1, minerAux_nil]
  rfl

/-- C5 witness: the amended claim applied to the concrete zero-transaction
dataset. -/
theorem claim_C5_witness :
    item1Support emptyTxDataset "a" = GF.nan ∧
      FindFrequentItemsets emptyTxDataset (GF.fin (1 / 2)) 3 = [] :=
  ⟨(claim_C5_zero_transactions emptyTxDataset (GF.fin (1 / 2)) 3 rfl).1 "a",
   (claim_C5_zero_transactions emptyTxDataset (GF.fin (1 / 2)) 3 rfl).2.2⟩

unseal Rat.mul Rat.inv Rat.add Rat.sub in
/-- C4 counterexample: with maxLen = 0 (a precondition violation) the
result is not empty — the Go code computes and returns the frequent
1-itemsets before the level loop ever checks maxLen. -/
theorem claim_C4_counterexample :
    FindFrequentItemsets oneTxDataset (GF.fin (1 / 2)) 0 ≠ [] := by
  decide

/-- C4 (amended: the function is total and never crashes, but the result
is not always empty on precondition violations: for maxLen < 1 the result
is exactly the frequent 1-itemsets, which may be non-empty; for
minSupport > 1 the result is empty; for minSupport ≤ 0 on a dataset with
at least one transaction and a non-empty universe the result is
non-empty). -/
theorem claim_C4_invalid_params (d : Dataset) (q : ℚ) (ml : Int) :
    (ml < 1 → FindFrequentItemsets d (GF.fin q) ml = level1 d (GF.fin q)) ∧
      (1 < q → FindFrequentItemsets d (GF.fin q) ml = []) ∧
      (q ≤ 0 → d.Transactions ≠ [] → d.UniqueItems ≠ [] →
        FindFrequentItemsets d (GF.fin q) ml ≠ []) := by
  refine ⟨?_, ?_, ?_⟩
  · intro hml
    have hz : (ml - 1).toNat = 0 := Int.toNat_of_nonpos (by omega)
    unfold FindFrequentItemsets
    rw [hz]
    simp [minerAux]
  · intro hq
    exact findFrequent_eq_nil_of_one_lt d q ml hq
  · intro hq htx hu
    have hlen : d.Transactions.length ≠ 0 := fun hc => htx (List.length_eq_zero.mp hc)
    have hpos : (0 : ℚ) < (d.Transactions.length : ℚ) := by
      have := Nat.pos_of_ne_zero hlen
      exact_mod_cast this
    obtain ⟨u, us, hus⟩ : ∃ u us, d.UniqueItems = u :: us := by
      cases hU : d.UniqueItems with
      | nil => exact absurd hU hu
      | cons u us => exact ⟨u, us, rfl⟩
    have hge : GF.ge (item1Support d u) (GF.fin q) = true := by
      rw [item1Support_of_ne_nil d u hlen, GF.ge_fin_fin, decide_eq_true_iff]
      have hnum : (0 : ℚ) ≤
          ((d.Transactions.filter (fun t => containsItem t u)).length : ℚ) := by
        exact_mod_cast Nat.zero_le _
      have : (0 : ℚ) ≤
          ((d.Transactions.filter (fun t => containsItem t u)).length : ℚ) /
            (d.Transactions.length : ℚ) := div_nonneg hnum (le_of_lt hpos)
      linarith
    have hlevel1 : level1 d (GF.fin q) ≠ [] := by
      unfold level1
      rw [hus]
      rw [List.filterMap_cons, hge]
      simp
    unfold FindFrequentItemsets
    intro hc
    exact hlevel1 (List.append_eq_nil.mp hc).1

/-- C4 witness: the three amended behaviours at concrete inputs. -/
theorem claim_C4_witness :
    FindFrequentItemsets oneTxDataset (GF.fin (1 / 2)) 0 =
        level1 oneTxDataset (GF.fin (1 / 2)) ∧
      FindFrequentItemsets oneTxDataset (GF.fin 2) 5 = [] ∧
      FindFrequentItemsets oneTxDataset (GF.fin 0) 5 ≠ [] :=
  ⟨(claim_C4_invalid_params oneTxDataset (1 / 2) 0).1 (by decide),
   (claim_C4_invalid_params oneTxDataset 2 5).2.1 (by norm_num),
   (claim_C4_invalid_params oneTxDataset 0 5).2.2 (le_refl 0) (by decide) (by decide)⟩

/-- C8: determinism of the core.  The mining and rule functions are pure;
their output is fully determined by the transaction list, the universe and
the scalar parameters (the unread `ItemsMap` field may even differ), so
two invocations with the same dataset and parameters yield identical
output lists — same elements, same field values, same order. -/
theorem claim_C8_determinism (d1 d2 : Dataset) (ms mc : GF) (ml : Int)
    (ht : d1.Transactions = d2.Transactions) (hu : d1.UniqueItems = d2.UniqueItems) :
    FindFrequentItemsets d1 ms ml = FindFrequentItemsets d2 ms ml ∧
      GenerateAssociationRules (FindFrequentItemsets d1 ms ml) mc =
        GenerateAssociationRules (FindFrequentItemsets d2 ms ml) mc := by
  obtain ⟨T1, U1, f1⟩ := d1
  obtain ⟨T2, U2, f2⟩ := d2
  obtain rfl : T1 = T2 := ht
  obtain rfl : U1 = U2 := hu
  have h : FindFrequentItemsets ⟨T1, U1, f1⟩ ms ml =
      FindFrequentItemsets ⟨T1, U1, f2⟩ ms ml := by
    unfold FindFrequentItemsets
    rw [show level1 ⟨T1, U1, f1⟩ ms = level1 ⟨T1, U1, f2⟩ ms from rfl, minerAux_congr]
  exact ⟨h, by rw [h]⟩

/-- C8 witness: two datasets equal in the fields the core reads but with
different `ItemsMap` functions give identical outputs on the example
parameters. -/
theorem claim_C8_witness :
    FindFrequentItemsets exDataset (GF.fin (1 / 2)) 2 =
      FindFrequentItemsets
        { Transactions := exDataset.Transactions
          UniqueItems := exDataset.UniqueItems
          ItemsMap := fun _ => true } (GF.fin (1 / 2)) 2 :=
  (claim_C8_determinism exDataset
    { Transactions := exDataset.Transactions
      UniqueItems := exDataset.UniqueItems
      ItemsMap := fun _ => true } (GF.fin (1 / 2)) (GF.fin (3 / 5)) 2 rfl rfl).1

/-! ## Rule generation: membership characterization and C6 -/

theorem GF.beq_fin_one_iff (x : GF) : GF.beq x (GF.fin 1) = true ↔ x = GF.fin 1 := by
  cases x <;> simp [GF.beq]

theorem GF.ne_nan_of_ge {x y : GF} (h : GF.ge x y = true) : x ≠ GF.nan := by
  intro hx
  subst hx
  rw [GF.ge_nan_left] at h
  exact Bool.noConfusion h

theorem mem_generateRules {itemsets : List FrequentItemset} {mc : GF}
    {rule : AssociationRule} (h : rule ∈ GenerateAssociationRules itemsets mc) :
    ∃ it ∈ itemsets, rule ∈ rulesForItemset (buildMap itemsets) mc it := by
  unfold GenerateAssociationRules at h
  rw [List.mem_flatten] at h
  obtain ⟨l, hl, hrl⟩ := h
  rw [List.mem_map] at hl
  obtain ⟨it, hit, rfl⟩ := hl
  exact ⟨it, hit, hrl⟩

theorem mem_rulesForItemset {m : List (String × GF)} {mc : GF} {it : FrequentItemset}
    {rule : AssociationRule} (h : rule ∈ rulesForItemset m mc it) :
    1 < it.Length ∧
      ∃ a asup csup,
        a ∈ generateAllSubsets it.Items ∧
        a.length ≠ 0 ∧ a.length ≠ it.Items.length ∧
        mapLookup m (joinKey a) = some asup ∧
        mapLookup m (joinKey (difference it.Items a)) = some csup ∧
        GF.ge (GF.div it.Support asup) mc = true ∧
        rule = mkRule a (difference it.Items a) it.Support asup csup := by
  unfold rulesForItemset at h
  by_cases hlen : it.Length ≤ 1
  · rw [if_pos hlen] at h
    exact absurd h (List.not_mem_nil rule)
  rw [if_neg hlen] at h
  refine ⟨by omega, ?_⟩
  rw [List.mem_filterMap] at h
  obtain ⟨a, ha, heq⟩ := h
  by_cases hguard : a.length = 0 ∨ a.length = it.Items.length
  · rw [if_pos hguard] at heq
    exact absurd heq (by simp)
  rw [if_neg hguard] at heq
  push_neg at hguard
  cases hlook : mapLookup m (joinKey a) with
  | none =>
      rw [hlook] at heq
      exact absurd heq (by simp)
  | some asup =>
      rw [hlook] at heq
      dsimp only at heq
      by_cases hge : GF.ge (GF.div it.Support asup) mc = true
      · rw [if_pos hge] at heq
        cases hlookc : mapLookup m (joinKey (difference it.Items a)) with
        | none =>
            rw [hlookc] at heq
            exact absurd heq (by simp)
        | some csup =>
            rw [hlookc] at heq
            dsimp only at heq
            exact ⟨a, asup, csup, ha, hguard.1, hguard.2, hlook, hlookc, hge,
              (Option.some.inj heq).symm⟩
      · rw [if_neg hge] at heq
        exact absurd heq (by simp)

theorem mapLookup_eq_some {m : List (String × GF)} {key : String} {v : GF}
    (h : mapLookup m key = some v) : ∃ p ∈ m, p.1 = key ∧ p.2 = v := by
  unfold mapLookup at h
  cases hf : m.reverse.find? (fun p => p.1 == key) with
  | none =>
      rw [hf] at h
      exact absurd h (by simp)
  | some p =>
      rw [hf] at h
      have hmem : p ∈ m.reverse := List.mem_of_find?_eq_some hf
      have hpred := List.find?_some hf
      rw [List.mem_reverse] at hmem
      refine ⟨p, hmem, ?_, ?_⟩
      · simpa using hpred
      · simpa using h

theorem mapLookup_buildMap_fin {itemsets : List FrequentItemset} {key : String} {v : GF}
    (hfin : ∀ it ∈ itemsets, ∃ q : ℚ, it.Support = GF.fin q)
    (h : mapLookup (buildMap itemsets) key = some v) : ∃ q : ℚ, v = GF.fin q := by
  obtain ⟨p, hp, _, hpv⟩ := mapLookup_eq_some h
  unfold buildMap at hp
  rw [List.mem_map] at hp
  obtain ⟨it, hit, rfl⟩ := hp
  obtain ⟨q, hq⟩ := hfin it hit
  exact ⟨q, by rw [← hpv]; exact hq⟩

/-- C6: for every rule emitted by `GenerateAssociationRules` (on any input
whose supports are finite floats, as the miner produces), the conviction
metric equals `(1 - consequentSupport) / (1 - confidence)` whenever
`consequentSupport != 1.0` and `confidence != 1.0`, and equals positive
infinity exactly when `consequentSupport == 1.0` or `confidence == 1.0`;
the special case never takes the division path. -/
theorem claim_C6_conviction (itemsets : List FrequentItemset) (mc : GF)
    (hfin : ∀ it ∈ itemsets, ∃ q : ℚ, it.Support = GF.fin q) :
    ∀ rule ∈ GenerateAssociationRules itemsets mc,
      ∃ csup, mapLookup (buildMap itemsets) (joinKey rule.Consequent) = some csup ∧
        (csup ≠ GF.fin 1 → rule.Confidence ≠ GF.fin 1 →
          rule.ConvictionMetric =
            GF.div (GF.sub (GF.fin 1) csup) (GF.sub (GF.fin 1) rule.Confidence)) ∧
        (rule.ConvictionMetric = GF.inf ↔
          (csup = GF.fin 1 ∨ rule.Confidence = GF.fin 1)) := by
  intro rule hr
  obtain ⟨it, hit, hrit⟩ := mem_generateRules hr
  obtain ⟨hlen, a, asup, csup, ha, h0, hfull, hlooka, hlookc, hge, hrule⟩ :=
    mem_rulesForItemset hrit
  obtain ⟨c, hc⟩ : ∃ q : ℚ, csup = GF.fin q := mapLookup_buildMap_fin hfin hlookc
  have hconf : rule.Confidence = GF.div it.Support asup := by rw [hrule]; rfl
  have hcons : rule.Consequent = difference it.Items a := by rw [hrule]; rfl
  have hconv : rule.ConvictionMetric =
      if GF.beq csup (GF.fin 1) || GF.beq (GF.div it.Support asup) (GF.fin 1)
      then GF.inf
      else GF.div (GF.sub (GF.fin 1) csup)
        (GF.sub (GF.fin 1) (GF.div it.Support asup)) := by rw [hrule]; rfl
  have hnan : GF.div it.Support asup ≠ GF.nan := GF.ne_nan_of_ge hge
  refine ⟨csup, by rw [hcons]; exact hlookc, ?_, ?_⟩
  · intro hc1 hc2
    rw [hconf] at hc2 ⊢
    rw [hconv, if_neg]
    rw [Bool.or_eq_true, not_or]
    constructor
    · intro hb
      exact hc1 ((GF.beq_fin_one_iff csup).mp hb)
    · intro hb
      exact hc2 ((GF.beq_fin_one_iff _).mp hb)
  · rw [hconf, hconv]
    constructor
    · intro hinf
      by_contra hne
      push_neg at hne
      obtain ⟨hne1, hne2⟩ := hne
      rw [if_neg] at hinf
      · subst hc
        cases hdiv : GF.div it.Support asup with
        | nan => exact hnan hdiv
        | inf =>
            rw [hdiv] at hinf
            simp [GF.sub, GF.div] at hinf
        | ninf =>
            rw [hdiv] at hinf
            simp [GF.sub, GF.div] at hinf
        | fin p =>
            rw [hdiv] at hinf
            have hp : p ≠ 1 := by
              intro hp1
              exact hne2 (by rw [hdiv, hp1])
            have h1p : (1 : ℚ) - p ≠ 0 := by
              intro hz
              exact hp (by linarith)
            rw [show GF.sub (GF.fin 1) (GF.fin c) = GF.fin (1 - c) from rfl,
              show GF.sub (GF.fin 1) (GF.fin p) = GF.fin (1 - p) from rfl,
              GF.div_fin_fin _ _ h1p] at hinf
            exact GF.noConfusion hinf
      · rw [Bool.or_eq_true, not_or]
        refine ⟨fun hb => hne1 ((GF.beq_fin_one_iff csup).mp hb),
          fun hb => hne2 ((GF.beq_fin_one_iff _).mp hb)⟩
    · intro hor
      rw [if_pos]
      rw [Bool.or_eq_true]
      rcases hor with hcs | hcf
      · exact Or.inl ((GF.beq_fin_one_iff csup).mpr hcs)
      · exact Or.inr ((GF.beq_fin_one_iff _).mpr hcf)

unseal Rat.mul Rat.inv Rat.add Rat.sub in
/-- C6 witness: the theorem applied to a concrete rule of a concrete
finite-support input (the rule a→b of the itemset {a,b}, whose confidence
is 1, so its conviction is infinite). -/
theorem claim_C6_witness :
    ∃ csup, mapLookup (buildMap sampleItemsets)
        (joinKey (mkRule ["a"] ["b"] (GF.fin (1 / 2)) (GF.fin (1 / 2))
          (GF.fin 1)).Consequent) = some csup ∧
      (csup ≠ GF.fin 1 →
        (mkRule ["a"] ["b"] (GF.fin (1 / 2)) (GF.fin (1 / 2)) (GF.fin 1)).Confidence ≠
          GF.fin 1 →
        (mkRule ["a"] ["b"] (GF.fin (1 / 2)) (GF.fin (1 / 2)) (GF.fin 1)).ConvictionMetric =
          GF.div (GF.sub (GF.fin 1) csup)
            (GF.sub (GF.fin 1)
              (mkRule ["a"] ["b"] (GF.fin (1 / 2)) (GF.fin (1 / 2)) (GF.fin 1)).Confidence)) ∧
      ((mkRule ["a"] ["b"] (GF.fin (1 / 2)) (GF.fin (1 / 2)) (GF.fin 1)).ConvictionMetric =
          GF.inf ↔
        (csup = GF.fin 1 ∨
          (mkRule ["a"] ["b"] (GF.fin (1 / 2)) (GF.fin (1 / 2)) (GF.fin 1)).Confidence =
            GF.fin 1)) :=
  claim_C6_conviction sampleItemsets (GF.fin (1 / 2)) (by
    intro it hit
    simp only [sampleItemsets, List.mem_cons, List.not_mem_nil, or_false] at hit
    rcases hit with rfl | rfl | rfl
    · exact ⟨1 / 2, rfl⟩
    · exact ⟨1, rfl⟩
    · exact ⟨1 / 2, rfl⟩)
    (mkRule ["a"] ["b"] (GF.fin (1 / 2)) (GF.fin (1 / 2)) (GF.fin 1)) (by decide)

/-! ## Downward closure (C1) -/

theorem candPairs_mem {L : List FrequentItemset} {p : FrequentItemset × FrequentItemset}
    (h : p ∈ candPairs L) : p.1 ∈ L ∧ p.2 ∈ L := by
  induction L with
  | nil => cases h
  | cons x xs ih =>
      rw [candPairs, List.mem_append] at h
      rcases h with h | h
      · rw [List.mem_map] at h
        obtain ⟨y, hy, rfl⟩ := h
        exact ⟨List.mem_cons_self x xs, List.mem_cons_of_mem x hy⟩
      · obtain ⟨h1, h2⟩ := ih h
        exact ⟨List.mem_cons_of_mem x h1, List.mem_cons_of_mem x h2⟩

theorem generateCandidates_inv {L : List FrequentItemset} {k : Nat} {c : FrequentItemset}
    (h : c ∈ generateCandidates L k) :
    ∃ p ∈ candPairs L,
      (k > 2 → p.1.Items.take (k - 2) = p.2.Items.take (k - 2)) ∧
      (k > 2 → pruneOk L k (joinCandidate k p.1.Items p.2.Items) = true) ∧
      c = { Items := joinCandidate k p.1.Items p.2.Items, Support := GF.fin 0,
            Length := k } := by
  unfold generateCandidates at h
  rw [List.mem_filterMap] at h
  obtain ⟨p, hp, heq⟩ := h
  unfold candFilter at heq
  by_cases h1 : k > 2 ∧ ¬ (p.1.Items.take (k - 2) = p.2.Items.take (k - 2))
  · rw [if_pos h1] at heq
    exact absurd heq (by simp)
  rw [if_neg h1] at heq
  by_cases h2 : k > 2 ∧ ¬ (pruneOk L k (joinCandidate k p.1.Items p.2.Items) = true)
  · rw [if_pos h2] at heq
    exact absurd heq (by simp)
  rw [if_neg h2] at heq
  push_neg at h1 h2
  exact ⟨p, hp, h1, h2, (Option.some.inj heq).symm⟩

theorem pruneOk_spec {L : List FrequentItemset} {k : Nat} {cand : List String}
    (h : pruneOk L k cand = true) :
    ∀ l < k, ∃ it ∈ L, it.Items = cand.eraseIdx l := by
  unfold pruneOk at h
  rw [List.all_eq_true] at h
  intro l hl
  have hany := h l (List.mem_range.mpr hl)
  rw [List.any_eq_true] at hany
  obtain ⟨it, hit, heq⟩ := hany
  refine ⟨it, hit, ?_⟩
  unfold slicesEqual at heq
  exact eq_of_beq heq

theorem joinCandidate_length (k : Nat) (hk : 1 ≤ k) (xi xj : List String) :
    (joinCandidate k xi xj).length = k := by
  unfold joinCandidate sortStrings
  rw [(List.perm_insertionSort SLe _).length_eq]
  simp only [List.length_append, List.length_take, List.length_replicate,
    List.length_singleton]
  omega

theorem sortStrings_pair (u v : String) :
    sortStrings [u, v] = [u, v] ∨ sortStrings [u, v] = [v, u] := by
  by_cases h : SLe u v
  · left
    simp [sortStrings, List.insertionSort, List.orderedInsert, h]
  · right
    simp [sortStrings, List.insertionSort, List.orderedInsert, h]

theorem generateCandidates_closed {L : List FrequentItemset} {k : Nat} (hk : 2 ≤ k)
    (h2 : k = 2 → ∀ p ∈ L, ∃ u, p.Items = [u])
    {c : FrequentItemset} (hc : c ∈ generateCandidates L k) :
    ∀ x ∈ c.Items, ∃ p ∈ L, p.Items = c.Items.erase x := by
  obtain ⟨pr, hpr, hpre, hprune, rfl⟩ := generateCandidates_inv hc
  rcases Nat.lt_or_ge k 3 with hk2 | hk3
  · -- k = 2: the candidate is the sorted pair of the two singleton parents
    have hkk : k = 2 := by omega
    subst hkk
    obtain ⟨u, hu⟩ := h2 rfl pr.1 (candPairs_mem hpr).1
    obtain ⟨v, hv⟩ := h2 rfl pr.2 (candPairs_mem hpr).2
    have hjoin : joinCandidate 2 pr.1.Items pr.2.Items = sortStrings [u, v] := by
      rw [hu, hv]
      rfl
    intro x hx
    simp only [hjoin] at hx ⊢
    rcases sortStrings_pair u v with hs | hs <;> rw [hs] at hx ⊢
    · rcases List.mem_pair.mp hx with rfl | rfl
      · exact ⟨pr.2, (candPairs_mem hpr).2, by rw [hv, List.erase_cons_head]⟩
      · by_cases huv : u = x
        · exact ⟨pr.2, (candPairs_mem hpr).2, by rw [hv, huv, List.erase_cons_head]⟩
        · refine ⟨pr.1, (candPairs_mem hpr).1, ?_⟩
          rw [hu, List.erase_cons_tail, List.erase_cons_head]
          simp [huv]
    · rcases List.mem_pair.mp hx with rfl | rfl
      · exact ⟨pr.1, (candPairs_mem hpr).1, by rw [hu, List.erase_cons_head]⟩
      · by_cases hvu : v = x
        · exact ⟨pr.1, (candPairs_mem hpr).1, by rw [hu, hvu, List.erase_cons_head]⟩
        · refine ⟨pr.2, (candPairs_mem hpr).2, ?_⟩
          rw [hv, List.erase_cons_tail, List.erase_cons_head]
          simp [hvu]
  · -- k ≥ 3: the prune step guarantees every one-element-removed subset
    intro x hx
    have hx2 : x ∈ joinCandidate k pr.1.Items pr.2.Items := hx
    have hlen : (joinCandidate k pr.1.Items pr.2.Items).length = k :=
      joinCandidate_length k (by omega) _ _
    have hidx : List.indexOf x (joinCandidate k pr.1.Items pr.2.Items) < k := by
      have h3 := List.indexOf_lt_length.mpr hx2
      rw [hlen] at h3
      exact h3
    obtain ⟨it, hit, hiteq⟩ := pruneOk_spec (hprune (by omega)) _ hidx
    refine ⟨it, hit, ?_⟩
    rw [hiteq, List.eraseIdx_indexOf_eq_erase]

theorem levelStep_inv {d : Dataset} {ms : GF} {L : List FrequentItemset} {k : Nat}
    {F : FrequentItemset} (h : F ∈ levelStep d ms L k) :
    ∃ c ∈ generateCandidates L k,
      F = { Items := c.Items, Support := candSupport d c.Items, Length := k } ∧
        GF.ge (candSupport d c.Items) ms = true := by
  unfold levelStep at h
  rw [List.mem_filterMap] at h
  obtain ⟨c, hc, heq⟩ := h
  by_cases hge : GF.ge (candSupport d c.Items) ms = true
  · rw [if_pos hge] at heq
    exact ⟨c, hc, (Option.some.inj heq).symm, hge⟩
  · rw [if_neg hge] at heq
    exact absurd heq (by simp)

theorem minerAux_closed (d : Dataset) (ms : GF) : ∀ fuel k L, 2 ≤ k →
    (k = 2 → ∀ p ∈ L, ∃ u, p.Items = [u]) →
    ∀ F ∈ minerAux d ms fuel k L, ∀ x ∈ F.Items,
      (∃ p ∈ L, p.Items = F.Items.erase x) ∨
        (∃ p ∈ minerAux d ms fuel k L, p.Items = F.Items.erase x) := by
  intro fuel
  induction fuel with
  | zero =>
      intro k L _ _ F hF
      cases hF
  | succ n ih =>
      intro k L hk h2 F hF x hx
      simp only [minerAux] at hF
      by_cases hemp : (levelStep d ms L k).isEmpty
      · rw [if_pos hemp] at hF
        cases hF
      rw [if_neg hemp] at hF
      rw [List.mem_append] at hF
      rcases hF with hF | hF
      · obtain ⟨c, hcmem, rfl, _⟩ := levelStep_inv hF
        obtain ⟨p, hp, hpeq⟩ := generateCandidates_closed hk h2 hcmem x hx
        exact Or.inl ⟨p, hp, hpeq⟩
      · have hrec := ih (k + 1) (levelStep d ms L k) (by omega)
          (fun hcon => absurd hcon (by omega)) F hF x hx
        have hsub : ∀ G, G ∈ levelStep d ms L k ∨ G ∈ minerAux d ms n (k + 1) (levelStep d ms L k) →
            G ∈ minerAux d ms (n + 1) k L := by
          intro G hG
          simp only [minerAux]
          rw [if_neg hemp, List.mem_append]
          exact hG
        rcases hrec with ⟨p, hp, hpeq⟩ | ⟨p, hp, hpeq⟩
        · exact Or.inr ⟨p, hsub p (Or.inl hp), hpeq⟩
        · exact Or.inr ⟨p, hsub p (Or.inr hp), hpeq⟩

theorem level1_inv {d : Dataset} {ms : GF} {F : FrequentItemset} (h : F ∈ level1 d ms) :
    ∃ u ∈ d.UniqueItems,
      F = { Items := [u], Support := item1Support d u, Length := 1 } ∧
        GF.ge (item1Support d u) ms = true := by
  unfold level1 at h
  rw [List.mem_filterMap] at h
  obtain ⟨u, hu, heq⟩ := h
  by_cases hge : GF.ge (item1Support d u) ms = true
  · rw [if_pos hge] at heq
    exact ⟨u, hu, (Option.some.inj heq).symm, hge⟩
  · rw [if_neg hge] at heq
    exact absurd heq (by simp)

theorem findFrequent_closed (d : Dataset) (ms : GF) (ml : Int) :
    ∀ F ∈ FindFrequentItemsets d ms ml, 2 ≤ F.Items.length →
      ∀ x ∈ F.Items, ∃ G ∈ FindFrequentItemsets d ms ml,
        G.Items = F.Items.erase x := by
  intro F hF hlen x hx
  unfold FindFrequentItemsets at hF ⊢
  rw [List.mem_append] at hF
  rcases hF with hF | hF
  · obtain ⟨u, _, rfl, _⟩ := level1_inv hF
    simp at hlen
  · have h2 : (2 : Nat) = 2 → ∀ p ∈ level1 d ms, ∃ u, p.Items = [u] := by
      intro _ p hp
      obtain ⟨u, _, rfl, _⟩ := level1_inv hp
      exact ⟨u, rfl⟩
    have := minerAux_closed d ms (ml - 1).toNat 2 (level1 d ms)
      le_rfl h2 F hF x hx
    rcases this with ⟨p, hp, hpeq⟩ | ⟨p, hp, hpeq⟩
    · exact ⟨p, List.mem_append_left _ hp, hpeq⟩
    · exact ⟨p, List.mem_append_right _ hp, hpeq⟩

/-- C1: downward closure of the mining output.  For every dataset
satisfying the Dataset invariants, every minSupport in (0,1] and every
maxLen ≥ 1, every FrequentItemset `F` of length `k > 1` in the list
returned by `FindFrequentItemsets` has all of its size-`k-1` item subsets
(equivalently, `F.Items.erase x` for each `x ∈ F.Items`) as the `Items` of
some FrequentItemset in that same returned list. -/
theorem claim_C1_downward_closure (d : Dataset) (hinv : DatasetInv d) (q : ℚ)
    (hq0 : 0 < q) (hq1 : q ≤ 1) (ml : Int) (hml : 1 ≤ ml) :
    ∀ F ∈ FindFrequentItemsets d (GF.fin q) ml, 2 ≤ F.Items.length →
      ∀ x ∈ F.Items, ∃ G ∈ FindFrequentItemsets d (GF.fin q) ml,
        G.Items = F.Items.erase x :=
  findFrequent_closed d (GF.fin q) ml

/-- C1 witness: the downward-closure theorem applied to the concrete
example dataset with minSupport = 1/2 and maxLen = 2. -/
theorem claim_C1_witness :
    DatasetInv exDataset ∧
      ∀ F ∈ FindFrequentItemsets exDataset (GF.fin (1 / 2)) 2, 2 ≤ F.Items.length →
        ∀ x ∈ F.Items, ∃ G ∈ FindFrequentItemsets exDataset (GF.fin (1 / 2)) 2,
          G.Items = F.Items.erase x :=
  ⟨⟨by decide, by decide⟩,
    claim_C1_downward_closure exDataset ⟨by decide, by decide⟩ (1 / 2) (by norm_num)
      (by norm_num) 2 (by norm_num)⟩

/-! ## The string order: a strict total order matching Go's sort -/

theorem Char.toNat_inj2 {a b : Char} (h : a.toNat = b.toNat) : a = b := by
  have hh := Char.ofNat_toNat a
  rw [← hh, h, Char.ofNat_toNat]

theorem chLt_irrefl : ∀ as, chLt as as = false
  | [] => rfl
  | a :: as => by
      rw [chLt]
      simp [chLt_irrefl as]

theorem chLt_trans : ∀ as bs cs, chLt as bs = true → chLt bs cs = true → chLt as cs = true
  | [], [], _, h1, _ => absurd h1 (by simp [chLt])
  | [], _ :: _, [], _, h2 => absurd h2 (by simp [chLt])
  | [], _ :: _, _ :: _, _, _ => rfl
  | _ :: _, [], _, h1, _ => absurd h1 (by simp [chLt])
  | _ :: _, _ :: _, [], _, h2 => absurd h2 (by simp [chLt])
  | a :: as, b :: bs, c :: cs, h1, h2 => by
      rw [chLt] at h1 h2 ⊢
      by_cases hab : a.toNat < b.toNat
      · by_cases hbc : b.toNat < c.toNat
        · rw [if_pos (Nat.lt_trans hab hbc)]
        · rw [if_pos hab] at h1
          rw [if_neg hbc] at h2
          by_cases hcb : c.toNat < b.toNat
          · rw [if_pos hcb] at h2
            exact absurd h2.symm (by simp)
          · rw [if_neg hcb] at h2
            rw [if_pos (by omega : a.toNat < c.toNat)]
      · rw [if_neg hab] at h1
        by_cases hba : b.toNat < a.toNat
        · rw [if_pos hba] at h1
          exact absurd h1.symm (by simp)
        · rw [if_neg hba] at h1
          by_cases hbc : b.toNat < c.toNat
          · rw [if_pos (by omega : a.toNat < c.toNat)]
          · rw [if_neg hbc] at h2
            by_cases hcb : c.toNat < b.toNat
            · rw [if_pos hcb] at h2
              exact absurd h2.symm (by simp)
            · rw [if_neg hcb] at h2
              rw [if_neg (by omega : ¬ a.toNat < c.toNat),
                if_neg (by omega : ¬ c.toNat < a.toNat)]
              exact chLt_trans as bs cs h1 h2

theorem chLt_asymm (as bs : List Char) (h : chLt as bs = true) : chLt bs as = false := by
  by_contra hc
  have hc2 : chLt bs as = true := by
    revert hc
    cases chLt bs as <;> simp
  have := chLt_trans as bs as h hc2
  rw [chLt_irrefl] at this
  exact Bool.noConfusion this

theorem chLt_eq_of_false : ∀ as bs, chLt as bs = false → chLt bs as = false → as = bs
  | [], [], _, _ => rfl
  | [], _ :: _, h1, _ => absurd h1 (by simp [chLt])
  | _ :: _, [], _, h2 => absurd h2 (by simp [chLt])
  | a :: as, b :: bs, h1, h2 => by
      have hab : ¬ a.toNat < b.toNat := by
        intro h
        rw [chLt, if_pos h] at h1
        exact Bool.noConfusion h1
      have hba : ¬ b.toNat < a.toNat := by
        intro h
        rw [chLt, if_pos h] at h2
        exact Bool.noConfusion h2
      rw [chLt, if_neg hab, if_neg hba] at h1
      rw [chLt, if_neg hba, if_neg hab] at h2
      have hch : a = b := Char.toNat_inj2 (by omega)
      rw [hch, chLt_eq_of_false as bs h1 h2]

theorem strLt_irrefl (a : String) : strLt a a = false :=
  chLt_irrefl a.data

theorem strLt_trans {a b c : String} (h1 : strLt a b = true) (h2 : strLt b c = true) :
    strLt a c = true :=
  chLt_trans a.data b.data c.data h1 h2

theorem strLt_asymm {a b : String} (h : strLt a b = true) : strLt b a = false :=
  chLt_asymm a.data b.data h

theorem strLt_eq_of_false {a b : String} (h1 : strLt a b = false)
    (h2 : strLt b a = false) : a = b :=
  String.ext (chLt_eq_of_false a.data b.data h1 h2)

instance : IsIrrefl String SLt :=
  ⟨fun a h => by rw [SLt, strLt_irrefl] at h; exact Bool.noConfusion h⟩

instance : IsTrans String SLt :=
  ⟨fun _ _ _ h1 h2 => strLt_trans h1 h2⟩

theorem SLe_iff {a b : String} : SLe a b ↔ SLt a b ∨ a = b := by
  unfold SLe SLt strLe
  rw [Bool.not_eq_true']
  constructor
  · intro h
    cases hab : strLt a b with
    | true => exact Or.inl rfl
    | false => exact Or.inr (strLt_eq_of_false hab h)
  · intro h
    rcases h with h | rfl
    · exact strLt_asymm h
    · exact strLt_irrefl a

instance : IsTrans String SLe := by
  constructor
  intro a b c h1 h2
  rcases SLe_iff.mp h1 with h1 | rfl
  · rcases SLe_iff.mp h2 with h2 | rfl
    · exact SLe_iff.mpr (Or.inl (strLt_trans h1 h2))
    · exact SLe_iff.mpr (Or.inl h1)
  · exact h2

instance : IsAntisymm String SLe := by
  constructor
  intro a b h1 h2
  rcases SLe_iff.mp h1 with h1 | rfl
  · rcases SLe_iff.mp h2 with h2 | rfl
    · exact absurd (strLt_asymm h1) (by rw [h2]; simp)
    · rfl
  · rfl

instance : IsTotal String SLe := by
  constructor
  intro a b
  cases hab : strLt b a with
  | false =>
      left
      unfold SLe strLe
      rw [hab]
      rfl
  | true =>
      right
      unfold SLe strLe
      rw [Bool.not_eq_true']
      exact strLt_asymm hab

theorem sorted_SLe_of_SLt {l : List String} (h : l.Sorted SLt) : l.Sorted SLe :=
  h.imp fun hab => SLe_iff.mpr (Or.inl hab)

theorem sorted_SLt_of_SLe_nodup {l : List String} (h : l.Sorted SLe) (hn : l.Nodup) :
    l.Sorted SLt :=
  (h.and hn).imp fun hab => by
    rcases SLe_iff.mp hab.1 with hlt | heq
    · exact hlt
    · exact absurd heq hab.2

theorem sortStrings_perm (l : List String) : (sortStrings l).Perm l :=
  List.perm_insertionSort SLe l

theorem sortStrings_sorted (l : List String) : (sortStrings l).Sorted SLe :=
  List.sorted_insertionSort SLe l

theorem sortStrings_eq_of_sorted {l t : List String} (ht : t.Sorted SLe)
    (hp : t.Perm l) : sortStrings l = t :=
  List.eq_of_perm_of_sorted ((sortStrings_perm l).trans hp.symm) (sortStrings_sorted l) ht

/-! ## Shape of a joined candidate -/

theorem sorted_pair_of_SLt {x y : String} (h : SLt x y) : ([x, y] : List String).Sorted SLt := by
  rw [List.sorted_cons]
  constructor
  · intro b hb
    rw [List.mem_singleton] at hb
    subst hb
    exact h
  · simp

theorem join_shape {k : Nat} (hk : 2 ≤ k) {A B : List String}
    (hA : A.Sorted SLt) (hB : B.Sorted SLt)
    (hlA : A.length = k - 1) (hlB : B.length = k - 1)
    (hpre : A.take (k - 2) = B.take (k - 2)) (hne : A ≠ B) :
    ∃ x y u v, A = A.take (k - 2) ++ [x] ∧ B = A.take (k - 2) ++ [y] ∧ x ≠ y ∧
      SLt u v ∧ ((u = x ∧ v = y) ∨ (u = y ∧ v = x)) ∧
      joinCandidate k A B = A.take (k - 2) ++ [u, v] ∧
      (A.take (k - 2) ++ [u, v]).Sorted SLt := by
  have hAne : A ≠ [] := by
    intro h
    rw [h] at hlA
    simp at hlA
    omega
  have hBne : B ≠ [] := by
    intro h
    rw [h] at hlB
    simp at hlB
    omega
  have hsub : k - 1 - 1 = k - 2 := by omega
  have hAx : A = A.take (k - 2) ++ [A.getLast hAne] := by
    conv_lhs => rw [← List.dropLast_append_getLast hAne]
    rw [List.dropLast_eq_take, hlA, hsub]
  have hBy0 : B = B.take (k - 2) ++ [B.getLast hBne] := by
    conv_lhs => rw [← List.dropLast_append_getLast hBne]
    rw [List.dropLast_eq_take, hlB, hsub]
  have hBy : B = A.take (k - 2) ++ [B.getLast hBne] := by
    rw [hpre]
    exact hBy0
  have hxy_ne : A.getLast hAne ≠ B.getLast hBne := by
    intro h
    apply hne
    rw [hAx, h, ← hBy]
  have hA2 : (A.take (k - 2) ++ [A.getLast hAne]).Sorted SLt := by
    rw [← hAx]
    exact hA
  have hB2 : (A.take (k - 2) ++ [B.getLast hBne]).Sorted SLt := by
    rw [← hBy]
    exact hB
  rw [List.Sorted, List.pairwise_append] at hA2 hB2
  have hPx : ∀ p ∈ A.take (k - 2), SLt p (A.getLast hAne) := by
    intro p hp
    exact hA2.2.2 p hp _ (List.mem_singleton_self _)
  have hPy : ∀ p ∈ A.take (k - 2), SLt p (B.getLast hBne) := by
    intro p hp
    exact hB2.2.2 p hp _ (List.mem_singleton_self _)
  have hPsorted : (A.take (k - 2)).Sorted SLt := hA2.1
  have hPl : (B.take (k - 2)).length = k - 2 := by
    rw [List.length_take, hlB, min_eq_left (by omega)]
  have hjc : joinCandidate k A B = sortStrings (A ++ [B.getLast hBne]) := by
    unfold joinCandidate
    congr 2
    · rw [← hlA, List.take_length, Nat.sub_self, List.replicate_zero, List.append_nil]
    · congr 1
      conv_lhs => rw [hBy0]
      rw [List.getD_eq_getElem?_getD, List.getElem?_append_right (le_of_eq hPl),
        hPl, Nat.sub_self]
      rfl
  have hsplit : A ++ [B.getLast hBne] =
      A.take (k - 2) ++ [A.getLast hAne, B.getLast hBne] := by
    conv_lhs => rw [hAx]
    rw [List.append_assoc]
    rfl
  cases hlt : strLt (A.getLast hAne) (B.getLast hBne) with
  | true =>
      have hsortT : (A.take (k - 2) ++ [A.getLast hAne, B.getLast hBne]).Sorted SLt := by
        rw [List.Sorted, List.pairwise_append]
        refine ⟨hPsorted, sorted_pair_of_SLt hlt, ?_⟩
        intro p hp b hb
        rcases List.mem_pair.mp hb with rfl | rfl
        · exact hPx p hp
        · exact hPy p hp
      refine ⟨A.getLast hAne, B.getLast hBne, A.getLast hAne, B.getLast hBne,
        hAx, hBy, hxy_ne, hlt, Or.inl ⟨rfl, rfl⟩, ?_, hsortT⟩
      rw [hjc]
      apply sortStrings_eq_of_sorted (sorted_SLe_of_SLt hsortT)
      rw [hsplit]
  | false =>
      have hyx : strLt (B.getLast hBne) (A.getLast hAne) = true := by
        cases h2 : strLt (B.getLast hBne) (A.getLast hAne) with
        | true => rfl
        | false => exact absurd (strLt_eq_of_false hlt h2) hxy_ne
      have hsortT : (A.take (k - 2) ++ [B.getLast hBne, A.getLast hAne]).Sorted SLt := by
        rw [List.Sorted, List.pairwise_append]
        refine ⟨hPsorted, sorted_pair_of_SLt hyx, ?_⟩
        intro p hp b hb
        rcases List.mem_pair.mp hb with rfl | rfl
        · exact hPy p hp
        · exact hPx p hp
      refine ⟨A.getLast hAne, B.getLast hBne, B.getLast hBne, A.getLast hAne,
        hAx, hBy, hxy_ne, hyx, Or.inr ⟨rfl, rfl⟩, ?_, hsortT⟩
      rw [hjc]
      apply sortStrings_eq_of_sorted (sorted_SLe_of_SLt hsortT)
      rw [hsplit]
      exact List.Perm.append_left (A.take (k - 2))
        (List.Perm.swap (A.getLast hAne) (B.getLast hBne) [])

/-! ## Candidate well-formedness (C10) and distinctness -/

theorem candFilter_eq_some {L : List FrequentItemset} {k : Nat}
    {p : FrequentItemset × FrequentItemset} {c : FrequentItemset}
    (h : candFilter L k p = some c) :
    (k > 2 → p.1.Items.take (k - 2) = p.2.Items.take (k - 2)) ∧
      c = { Items := joinCandidate k p.1.Items p.2.Items, Support := GF.fin 0,
            Length := k } := by
  unfold candFilter at h
  by_cases h1 : k > 2 ∧ ¬ (p.1.Items.take (k - 2) = p.2.Items.take (k - 2))
  · rw [if_pos h1] at h
    exact absurd h (by simp)
  rw [if_neg h1] at h
  by_cases h2 : k > 2 ∧ ¬ (pruneOk L k (joinCandidate k p.1.Items p.2.Items) = true)
  · rw [if_pos h2] at h
    exact absurd h (by simp)
  rw [if_neg h2] at h
  push_neg at h1
  exact ⟨h1, (Option.some.inj h).symm⟩

theorem candPairs_rel {R : FrequentItemset → FrequentItemset → Prop}
    {L : List FrequentItemset} (h : L.Pairwise R) :
    ∀ p ∈ candPairs L, R p.1 p.2 := by
  induction L with
  | nil =>
      intro p hp
      cases hp
  | cons x xs ih =>
      rw [List.pairwise_cons] at h
      intro p hp
      rw [candPairs, List.mem_append] at hp
      rcases hp with hp | hp
      · rw [List.mem_map] at hp
        obtain ⟨y, hy, rfl⟩ := hp
        exact h.1 y hy
      · exact ih h.2 p hp

theorem pair_take_eq {k : Nat} (hk : 2 ≤ k)
    {p : FrequentItemset × FrequentItemset}
    (hpre : k > 2 → p.1.Items.take (k - 2) = p.2.Items.take (k - 2)) :
    p.1.Items.take (k - 2) = p.2.Items.take (k - 2) := by
  rcases Nat.lt_or_ge 2 k with h | h
  · exact hpre h
  · have hz : k - 2 = 0 := by omega
    rw [hz]
    rfl

theorem generateCandidates_wf {L : List FrequentItemset} {k : Nat} (hk : 2 ≤ k)
    (hwf : ∀ p ∈ L, p.Items.Sorted SLt ∧ p.Items.length = k - 1)
    (hdis : L.Pairwise (fun a b => a.Items ≠ b.Items)) :
    ∀ c ∈ generateCandidates L k,
      c.Items.Sorted SLt ∧ c.Items.length = k ∧ c.Items.Nodup ∧ c.Length = k := by
  intro c hc
  unfold generateCandidates at hc
  rw [List.mem_filterMap] at hc
  obtain ⟨p, hp, hsome⟩ := hc
  obtain ⟨hpre, rfl⟩ := candFilter_eq_some hsome
  have h1 := hwf p.1 (candPairs_mem hp).1
  have h2 := hwf p.2 (candPairs_mem hp).2
  have hne : p.1.Items ≠ p.2.Items := candPairs_rel hdis p hp
  obtain ⟨x, y, u, v, _, _, _, _, _, hjoin, hsort⟩ :=
    join_shape hk h1.1 h2.1 h1.2 h2.2 (pair_take_eq hk hpre) hne
  have hsorted : (joinCandidate k p.1.Items p.2.Items).Sorted SLt := by
    rw [hjoin]
    exact hsort
  exact ⟨hsorted, joinCandidate_length k (by omega) _ _, hsorted.nodup, rfl⟩

/-- C10: candidate well-formedness.  If every itemset in the input to
`generateCandidates` has strictly sorted (hence duplicate-free) `Items` of
length `k-1` and the input itemsets are pairwise distinct, then every
candidate returned for target size `k` has `Items` strictly sorted with
exactly `k` distinct elements and `Length = k`. -/
theorem claim_C10_candidate_wellformed (L : List FrequentItemset) (k : Nat) (hk : 2 ≤ k)
    (hwf : ∀ p ∈ L, p.Items.Sorted SLt ∧ p.Items.length = k - 1)
    (hdis : L.Pairwise (fun a b => a.Items ≠ b.Items)) :
    ∀ c ∈ generateCandidates L k,
      c.Items.Sorted SLt ∧ c.Items.length = k ∧ c.Items.Nodup ∧ c.Length = k :=
  generateCandidates_wf hk hwf hdis

/-- C10 witness: the well-formedness theorem applied to the concrete
candidate {a,b} generated from a two-singleton frequent list at target
size 2. -/
theorem claim_C10_witness :
    ({ Items := ["a", "b"], Support := GF.fin 0, Length := 2 } :
        FrequentItemset).Items.Sorted SLt ∧
      ({ Items := ["a", "b"], Support := GF.fin 0, Length := 2 } :
        FrequentItemset).Items.length = 2 ∧
      ({ Items := ["a", "b"], Support := GF.fin 0, Length := 2 } :
        FrequentItemset).Items.Nodup ∧
      ({ Items := ["a", "b"], Support := GF.fin 0, Length := 2 } :
        FrequentItemset).Length = 2 :=
  claim_C10_candidate_wellformed
    [{ Items := ["a"], Support := GF.fin 1, Length := 1 },
     { Items := ["b"], Support := GF.fin 1, Length := 1 }] 2 (by norm_num) (by decide)
    (by decide) { Items := ["a", "b"], Support := GF.fin 0, Length := 2 } (by decide)

/-! ## Injectivity of the join and pairwise distinctness of candidates -/

theorem join_inj {k : Nat} (hk : 2 ≤ k) {A1 B1 A2 B2 : List String}
    (hA1 : A1.Sorted SLt) (hB1 : B1.Sorted SLt) (hlA1 : A1.length = k - 1)
    (hlB1 : B1.length = k - 1) (hpre1 : A1.take (k - 2) = B1.take (k - 2))
    (hne1 : A1 ≠ B1)
    (hA2 : A2.Sorted SLt) (hB2 : B2.Sorted SLt) (hlA2 : A2.length = k - 1)
    (hlB2 : B2.length = k - 1) (hpre2 : A2.take (k - 2) = B2.take (k - 2))
    (hne2 : A2 ≠ B2)
    (heq : joinCandidate k A1 B1 = joinCandidate k A2 B2) :
    (A1 = A2 ∧ B1 = B2) ∨ (A1 = B2 ∧ B1 = A2) := by
  obtain ⟨x1, y1, u1, v1, hA1x, hB1y, hne1xy, hlt1, hc1, hj1, _⟩ :=
    join_shape hk hA1 hB1 hlA1 hlB1 hpre1 hne1
  obtain ⟨x2, y2, u2, v2, hA2x, hB2y, hne2xy, hlt2, hc2, hj2, _⟩ :=
    join_shape hk hA2 hB2 hlA2 hlB2 hpre2 hne2
  rw [hj1, hj2] at heq
  have hl12 : (A1.take (k - 2)).length = (A2.take (k - 2)).length := by
    rw [List.length_take, List.length_take, hlA1, hlA2]
  obtain ⟨hP, hUV⟩ := List.append_inj heq hl12
  injection hUV with hu hrest
  injection hrest with hv _
  rcases hc1 with ⟨h1a, h1b⟩ | ⟨h1a, h1b⟩ <;> rcases hc2 with ⟨h2a, h2b⟩ | ⟨h2a, h2b⟩
  · left
    refine ⟨?_, ?_⟩
    · rw [hA1x, hA2x, hP, show x1 = x2 by rw [← h1a, hu, h2a]]
    · rw [hB1y, hB2y, hP, show y1 = y2 by rw [← h1b, hv, h2b]]
  · right
    refine ⟨?_, ?_⟩
    · rw [hA1x, hB2y, hP, show x1 = y2 by rw [← h1a, hu, h2a]]
    · rw [hB1y, hA2x, hP, show y1 = x2 by rw [← h1b, hv, h2b]]
  · right
    refine ⟨?_, ?_⟩
    · rw [hA1x, hB2y, hP, show x1 = y2 by rw [← h1b, hv, h2b]]
    · rw [hB1y, hA2x, hP, show y1 = x2 by rw [← h1a, hu, h2a]]
  · left
    refine ⟨?_, ?_⟩
    · rw [hA1x, hA2x, hP, show x1 = x2 by rw [← h1b, hv, h2b]]
    · rw [hB1y, hB2y, hP, show y1 = y2 by rw [← h1a, hu, h2a]]

theorem candPairs_pairwise {L : List FrequentItemset}
    (h : L.Pairwise (fun a b => a.Items ≠ b.Items)) :
    (candPairs L).Pairwise (fun p q =>
      (p.1 = q.1 ∧ p.2.Items ≠ q.2.Items) ∨
        (p.1.Items ≠ q.1.Items ∧ p.1.Items ≠ q.2.Items)) := by
  induction L with
  | nil => constructor
  | cons x xs ih =>
      rw [List.pairwise_cons] at h
      rw [candPairs, List.pairwise_append]
      refine ⟨?_, ih h.2, ?_⟩
      · rw [List.pairwise_map]
        exact h.2.imp fun hab => Or.inl ⟨rfl, hab⟩
      · intro p hp q hq
        rw [List.mem_map] at hp
        obtain ⟨y, hy, rfl⟩ := hp
        exact Or.inr ⟨h.1 q.1 (candPairs_mem hq).1, h.1 q.2 (candPairs_mem hq).2⟩

theorem generateCandidates_pairwise {L : List FrequentItemset} {k : Nat} (hk : 2 ≤ k)
    (hwf : ∀ p ∈ L, p.Items.Sorted SLt ∧ p.Items.length = k - 1)
    (hdis : L.Pairwise (fun a b => a.Items ≠ b.Items)) :
    (generateCandidates L k).Pairwise (fun a b => a.Items ≠ b.Items) := by
  unfold generateCandidates
  have hS := candPairs_pairwise hdis
  have hR := hS.imp_of_mem
    (S := fun p q =>
      ((p.1 = q.1 ∧ p.2.Items ≠ q.2.Items) ∨
        (p.1.Items ≠ q.1.Items ∧ p.1.Items ≠ q.2.Items)) ∧
      (p.1 ∈ L ∧ p.2 ∈ L ∧ p.1.Items ≠ p.2.Items) ∧
      (q.1 ∈ L ∧ q.2 ∈ L ∧ q.1.Items ≠ q.2.Items))
    (fun hp hq hs =>
      ⟨hs, ⟨(candPairs_mem hp).1, (candPairs_mem hp).2, candPairs_rel hdis _ hp⟩,
        ⟨(candPairs_mem hq).1, (candPairs_mem hq).2, candPairs_rel hdis _ hq⟩⟩)
  refine hR.filterMap _ ?_
  intro p q hr c1 hc1 c2 hc2
  obtain ⟨hs, ⟨hp1, hp2, hpne⟩, ⟨hq1, hq2, hqne⟩⟩ := hr
  obtain ⟨hpre1, rfl⟩ := candFilter_eq_some hc1
  obtain ⟨hpre2, rfl⟩ := candFilter_eq_some hc2
  show joinCandidate k p.1.Items p.2.Items ≠ joinCandidate k q.1.Items q.2.Items
  intro heq
  have hwp1 := hwf p.1 hp1
  have hwp2 := hwf p.2 hp2
  have hwq1 := hwf q.1 hq1
  have hwq2 := hwf q.2 hq2
  rcases join_inj hk hwp1.1 hwp2.1 hwp1.2 hwp2.2 (pair_take_eq hk hpre1) hpne
      hwq1.1 hwq2.1 hwq1.2 hwq2.2 (pair_take_eq hk hpre2) hqne heq with
    ⟨hAA, hBB⟩ | ⟨hAB, hBA⟩
  · rcases hs with ⟨heq1, hne22⟩ | ⟨hne11, _⟩
    · exact hne22 hBB
    · exact hne11 hAA
  · rcases hs with ⟨heq1, _⟩ | ⟨_, hne12⟩
    · exact hqne (by rw [← heq1, ← hAB])
    · exact hne12 hAB

/-! ## Well-formedness of all mined levels (C9) -/

theorem levelStep_wf {d : Dataset} {ms : GF} {L : List FrequentItemset} {k : Nat}
    (hk : 2 ≤ k)
    (hwf : ∀ p ∈ L, p.Items.Sorted SLt ∧ p.Items.length = k - 1)
    (hdis : L.Pairwise (fun a b => a.Items ≠ b.Items)) :
    (∀ p ∈ levelStep d ms L k,
      p.Items.Sorted SLt ∧ p.Items.length = k ∧ p.Length = k) ∧
      (levelStep d ms L k).Pairwise (fun a b => a.Items ≠ b.Items) := by
  constructor
  · intro p hp
    obtain ⟨c, hc, rfl, _⟩ := levelStep_inv hp
    have hcwf := generateCandidates_wf hk hwf hdis c hc
    exact ⟨hcwf.1, hcwf.2.1, rfl⟩
  · unfold levelStep
    apply List.Pairwise.filterMap _ ?_ (generateCandidates_pairwise hk hwf hdis)
    intro c1 c2 hne b1 hb1 b2 hb2
    have e1 : b1.Items = c1.Items := by
      by_cases hge : GF.ge (candSupport d c1.Items) ms = true
      · rw [if_pos hge] at hb1
        rw [← Option.some.inj hb1]
      · rw [if_neg hge] at hb1
        exact absurd hb1 (by simp)
    have e2 : b2.Items = c2.Items := by
      by_cases hge : GF.ge (candSupport d c2.Items) ms = true
      · rw [if_pos hge] at hb2
        rw [← Option.some.inj hb2]
      · rw [if_neg hge] at hb2
        exact absurd hb2 (by simp)
    rw [e1, e2]
    exact hne

theorem minerAux_wf (d : Dataset) (ms : GF) : ∀ fuel k L, 2 ≤ k →
    (∀ p ∈ L, p.Items.Sorted SLt ∧ p.Items.length = k - 1) →
    L.Pairwise (fun a b => a.Items ≠ b.Items) →
    (∀ F ∈ minerAux d ms fuel k L,
      F.Items.Sorted SLt ∧ k ≤ F.Items.length ∧ F.Items.length = F.Length) ∧
      (minerAux d ms fuel k L).Pairwise (fun a b => a.Items ≠ b.Items) := by
  intro fuel
  induction fuel with
  | zero =>
      intro k L _ _ _
      exact ⟨fun F hF => absurd hF (List.not_mem_nil F), List.Pairwise.nil⟩
  | succ n ih =>
      intro k L hk hwf hdis
      simp only [minerAux]
      by_cases hemp : (levelStep d ms L k).isEmpty
      · rw [if_pos hemp]
        exact ⟨fun F hF => absurd hF (List.not_mem_nil F), List.Pairwise.nil⟩
      rw [if_neg hemp]
      obtain ⟨hstep_el, hstep_pw⟩ := levelStep_wf hk hwf hdis
      have hwf2 : ∀ p ∈ levelStep d ms L k,
          p.Items.Sorted SLt ∧ p.Items.length = k + 1 - 1 := by
        intro p hp
        obtain ⟨h1, h2, _⟩ := hstep_el p hp
        exact ⟨h1, by omega⟩
      obtain ⟨hrec_el, hrec_pw⟩ := ih (k + 1) (levelStep d ms L k) (by omega) hwf2 hstep_pw
      constructor
      · intro F hF
        rw [List.mem_append] at hF
        rcases hF with hF | hF
        · obtain ⟨h1, h2, h3⟩ := hstep_el F hF
          exact ⟨h1, le_of_eq h2.symm, by rw [h2, h3]⟩
        · obtain ⟨h1, h2, h3⟩ := hrec_el F hF
          exact ⟨h1, by omega, h3⟩
      · rw [List.pairwise_append]
        refine ⟨hstep_pw, hrec_pw, ?_⟩
        intro a ha b hb
        obtain ⟨_, ha2, _⟩ := hstep_el a ha
        obtain ⟨_, hb2, _⟩ := hrec_el b hb
        intro hcontra
        have hlen : a.Items.length = b.Items.length := by rw [hcontra]
        omega

theorem level1_wf {d : Dataset} (hinv : DatasetInv d) (ms : GF) :
    (∀ p ∈ level1 d ms, p.Items.Sorted SLt ∧ p.Items.length = 1 ∧ p.Length = 1) ∧
      (level1 d ms).Pairwise (fun a b => a.Items ≠ b.Items) := by
  constructor
  · intro p hp
    obtain ⟨u, _, rfl, _⟩ := level1_inv hp
    refine ⟨?_, rfl, rfl⟩
    simp [List.Sorted]
  · unfold level1
    have huniv : d.UniqueItems.Pairwise (fun a b => a ≠ b) :=
      hinv.1.imp fun hab heq => by
        rw [heq] at hab
        exact (irrefl_of SLt _) hab
    apply List.Pairwise.filterMap _ ?_ huniv
    intro u v huv b1 hb1 b2 hb2
    have e1 : b1.Items = [u] := by
      by_cases hge : GF.ge (item1Support d u) ms = true
      · rw [if_pos hge] at hb1
        rw [← Option.some.inj hb1]
      · rw [if_neg hge] at hb1
        exact absurd hb1 (by simp)
    have e2 : b2.Items = [v] := by
      by_cases hge : GF.ge (item1Support d v) ms = true
      · rw [if_pos hge] at hb2
        rw [← Option.some.inj hb2]
      · rw [if_neg hge] at hb2
        exact absurd hb2 (by simp)
    rw [e1, e2]
    intro hc
    exact huv (List.cons.inj hc).1

theorem findFrequent_wf {d : Dataset} (hinv : DatasetInv d) (ms : GF) (ml : Int) :
    (∀ F ∈ FindFrequentItemsets d ms ml,
      F.Items.Sorted SLt ∧ F.Items.length = F.Length ∧ 1 ≤ F.Items.length) ∧
      (FindFrequentItemsets d ms ml).Pairwise (fun a b => a.Items ≠ b.Items) := by
  unfold FindFrequentItemsets
  obtain ⟨h1el, h1pw⟩ := level1_wf hinv ms
  have hwf2 : ∀ p ∈ level1 d ms, p.Items.Sorted SLt ∧ p.Items.length = 2 - 1 := by
    intro p hp
    obtain ⟨ha, hb, _⟩ := h1el p hp
    exact ⟨ha, hb⟩
  obtain ⟨hrel, hrpw⟩ :=
    minerAux_wf d ms (ml - 1).toNat 2 (level1 d ms) le_rfl hwf2 h1pw
  constructor
  · intro F hF
    rw [List.mem_append] at hF
    rcases hF with hF | hF
    · obtain ⟨ha, hb, hc⟩ := h1el F hF
      exact ⟨ha, by rw [hb, hc], by omega⟩
    · obtain ⟨ha, hb, hc⟩ := hrel F hF
      exact ⟨ha, hc, by omega⟩
  · rw [List.pairwise_append]
    refine ⟨h1pw, hrpw, ?_⟩
    intro a ha b hb
    obtain ⟨_, ha2, _⟩ := h1el a ha
    obtain ⟨_, hb2, _⟩ := hrel b hb
    intro hcontra
    have hlen : a.Items.length = b.Items.length := by rw [hcontra]
    omega

/-- C9: output distinctness.  For every dataset satisfying the Dataset
invariants, every minSupport and every maxLen, the list returned by
`FindFrequentItemsets` contains no two entries with equal `Items`
sequences — each itemset appears at most once across all levels. -/
theorem claim_C9_output_distinct (d : Dataset) (hinv : DatasetInv d) (ms : GF) (ml : Int) :
    (FindFrequentItemsets d ms ml).Pairwise (fun a b => a.Items ≠ b.Items) :=
  (findFrequent_wf hinv ms ml).2

/-- C9 witness: distinctness on the concrete example run. -/
theorem claim_C9_witness :
    (FindFrequentItemsets exDataset (GF.fin (1 / 2)) 2).Pairwise
      (fun a b => a.Items ≠ b.Items) :=
  claim_C9_output_distinct exDataset ⟨by decide, by decide⟩ (GF.fin (1 / 2)) 2

/-! ## Subset closure and the rule-generation lookups (C2, C7) -/

theorem maskSubset_cons (x : String) (xs : List String) (i : Nat) :
    maskSubset (x :: xs) i = (if i.testBit 0 then [x] else []) ++ maskSubset xs (i / 2) := by
  unfold maskSubset
  rw [List.length_cons, List.range_succ_eq_map, List.filterMap_cons, List.filterMap_map]
  have hfc : (fun j => if i.testBit j then some ((x :: xs).getD j "") else none) ∘ Nat.succ
      = fun j => if (i / 2).testBit j then some (xs.getD j "") else none := by
    funext j
    simp only [Function.comp_apply, Nat.succ_eq_add_one, Nat.testBit_add_one,
      List.getD_cons_succ]
  rw [hfc]
  cases hbit : i.testBit 0 <;> simp [hbit]

theorem maskSubset_sublist (l : List String) (i : Nat) : (maskSubset l i).Sublist l := by
  induction l generalizing i with
  | nil =>
      unfold maskSubset
      simp
  | cons x xs ih =>
      rw [maskSubset_cons]
      by_cases hbit : i.testBit 0
      · rw [if_pos hbit]
        exact List.Sublist.cons₂ x (ih (i / 2))
      · rw [if_neg hbit]
        rw [List.nil_append]
        exact List.Sublist.cons x (ih (i / 2))

theorem generateAllSubsets_sublist {s a : List String} (h : a ∈ generateAllSubsets s) :
    a.Sublist s := by
  unfold generateAllSubsets at h
  rw [List.mem_map] at h
  obtain ⟨i, _, rfl⟩ := h
  exact maskSubset_sublist s i

theorem sublist_erase_of_ne {S L : List String} (hs : S.Sublist L) :
    L.Nodup → S ≠ L → ∃ x ∈ L, S.Sublist (L.erase x) := by
  induction hs with
  | slnil =>
      intro _ hne
      exact absurd rfl hne
  | @cons l₁ l₂ a hs ih =>
      intro _ _
      refine ⟨a, List.mem_cons_self a l₂, ?_⟩
      rw [List.erase_cons_head]
      exact hs
  | @cons₂ l₁ l₂ a hs ih =>
      intro hn hne
      rw [List.nodup_cons] at hn
      by_cases hSL : l₁ = l₂
      · exact absurd (by rw [hSL]) hne
      · obtain ⟨x, hx, hxs⟩ := ih hn.2 hSL
        have hax : a ≠ x := fun h => hn.1 (h ▸ hx)
        refine ⟨x, List.mem_cons_of_mem a hx, ?_⟩
        rw [List.erase_cons_tail (by simp [hax])]
        exact List.Sublist.cons₂ a hxs

theorem findFrequent_subset_closed {d : Dataset} (hinv : DatasetInv d) (ms : GF)
    (ml : Int) :
    ∀ F ∈ FindFrequentItemsets d ms ml, ∀ S, S.Sublist F.Items → S ≠ [] →
      ∃ G ∈ FindFrequentItemsets d ms ml, G.Items = S := by
  have hwf := (findFrequent_wf hinv ms ml).1
  suffices h : ∀ n F, F ∈ FindFrequentItemsets d ms ml → F.Items.length = n →
      ∀ S, S.Sublist F.Items → S ≠ [] →
        ∃ G ∈ FindFrequentItemsets d ms ml, G.Items = S by
    intro F hF S hS hne
    exact h F.Items.length F hF rfl S hS hne
  intro n
  induction n using Nat.strong_induction_on with
  | _ n ih =>
      intro F hF hlen S hS hne
      by_cases hSF : S = F.Items
      · exact ⟨F, hF, hSF.symm⟩
      · have hnodup : F.Items.Nodup := (hwf F hF).1.nodup
        obtain ⟨x, hx, hxs⟩ := sublist_erase_of_ne hS hnodup hSF
        have hlt : S.length < F.Items.length :=
          Nat.lt_of_le_of_ne hS.length_le fun he => hSF (hS.eq_of_length he)
        have hS1 : 1 ≤ S.length := List.length_pos.mpr hne
        obtain ⟨G, hG, hGeq⟩ := findFrequent_closed d ms ml F hF (by omega) x hx
        have hGlen : G.Items.length = F.Items.length - 1 := by
          rw [hGeq, List.length_erase_of_mem hx]
        apply ih G.Items.length (by omega) G hG rfl S ?_ hne
        rw [hGeq]
        exact hxs

theorem mapLookup_isSome_of_key {m : List (String × GF)} {key : String}
    (h : ∃ p ∈ m, p.1 = key) : (mapLookup m key).isSome = true := by
  unfold mapLookup
  obtain ⟨p, hp, hkey⟩ := h
  cases hf : m.reverse.find? (fun p => p.1 == key) with
  | none =>
      rw [List.find?_eq_none] at hf
      exact absurd (by simp [hkey]) (hf p (List.mem_reverse.mpr hp))
  | some v => rfl

theorem difference_sublist (a b : List String) : (difference a b).Sublist a :=
  List.filter_sublist a

theorem difference_ne_nil {L A : List String} (hn : L.Nodup) (hlen : A.length < L.length) :
    difference L A ≠ [] := by
  intro hc
  have hsub : ∀ x ∈ L, x ∈ A := by
    intro x hx
    by_contra hxa
    have hmem : x ∈ difference L A := by
      unfold difference
      rw [List.mem_filter]
      refine ⟨hx, ?_⟩
      simp [hxa]
    rw [hc] at hmem
    cases hmem
  have hle : L.length ≤ A.length := by
    have h1 : L.toFinset.card = L.length := List.toFinset_card_of_nodup hn
    have h2 : L.toFinset ⊆ A.toFinset := by
      intro x hx
      rw [List.mem_toFinset] at hx ⊢
      exact hsub x hx
    calc L.length = L.toFinset.card := h1.symm
      _ ≤ A.toFinset.card := Finset.card_le_card h2
      _ ≤ A.length := List.toFinset_card_le A
  omega

/-- C2: in `GenerateAssociationRules`, when the input is an output of
`FindFrequentItemsets` on a dataset satisfying the Dataset invariants,
the antecedent-support lookup and the consequent-support lookup in the
comma-joined-key map succeed for every enumerated non-empty proper
antecedent of every itemset of length > 1: the two skip branches guarded
by a failed lookup are unreachable. -/
theorem claim_C2_lookups_succeed (d : Dataset) (hinv : DatasetInv d) (q : ℚ)
    (hq0 : 0 < q) (hq1 : q ≤ 1) (ml : Int) (hml : 1 ≤ ml) :
    ∀ it ∈ FindFrequentItemsets d (GF.fin q) ml, 1 < it.Length →
      ∀ a ∈ generateAllSubsets it.Items, a.length ≠ 0 → a.length ≠ it.Items.length →
        (mapLookup (buildMap (FindFrequentItemsets d (GF.fin q) ml))
            (joinKey a)).isSome = true ∧
          (mapLookup (buildMap (FindFrequentItemsets d (GF.fin q) ml))
            (joinKey (difference it.Items a))).isSome = true := by
  intro it hit hlen a ha ha0 hafull
  have hasub : a.Sublist it.Items := generateAllSubsets_sublist ha
  have hane : a ≠ [] := by
    intro h
    rw [h] at ha0
    exact ha0 rfl
  have hwfit := (findFrequent_wf hinv (GF.fin q) ml).1 it hit
  have hnodup : it.Items.Nodup := hwfit.1.nodup
  have halt : a.length < it.Items.length := lt_of_le_of_ne hasub.length_le hafull
  obtain ⟨G1, hG1, hG1eq⟩ :=
    findFrequent_subset_closed hinv (GF.fin q) ml it hit a hasub hane
  obtain ⟨G2, hG2, hG2eq⟩ :=
    findFrequent_subset_closed hinv (GF.fin q) ml it hit (difference it.Items a)
      (difference_sublist _ _) (difference_ne_nil hnodup halt)
  constructor
  · apply mapLookup_isSome_of_key
    refine ⟨(joinKey G1.Items, G1.Support), ?_, by rw [hG1eq]⟩
    unfold buildMap
    rw [List.mem_map]
    exact ⟨G1, hG1, rfl⟩
  · apply mapLookup_isSome_of_key
    refine ⟨(joinKey G2.Items, G2.Support), ?_, by rw [hG2eq]⟩
    unfold buildMap
    rw [List.mem_map]
    exact ⟨G2, hG2, rfl⟩

unseal Rat.mul Rat.inv Rat.add Rat.sub in
/-- C2 witness: both lookups succeed for the antecedent ["bread"] of the
itemset {bread,butter} in the example run. -/
theorem claim_C2_witness :
    (mapLookup (buildMap (FindFrequentItemsets exDataset (GF.fin (1 / 2)) 2))
        (joinKey ["bread"])).isSome = true ∧
      (mapLookup (buildMap (FindFrequentItemsets exDataset (GF.fin (1 / 2)) 2))
        (joinKey (difference ["bread", "butter"] ["bread"]))).isSome = true :=
  claim_C2_lookups_succeed exDataset ⟨by decide, by decide⟩ (1 / 2) (by norm_num)
    (by norm_num) 2 (by norm_num)
    { Items := ["bread", "butter"], Support := GF.fin (1 / 2), Length := 2 } (by decide)
    (by decide) ["bread"] (by decide) (by decide) (by decide)

/-! ## Rule partition invariant (C7) -/

/-- C7: rule partition invariant.  For every AssociationRule returned by
`GenerateAssociationRules` on a miner output (dataset satisfying the
invariants, minSupport in (0,1], maxLen ≥ 1), the antecedent and
consequent are both non-empty, disjoint as sets, their union equals the
item set of some FrequentItemset of the input list, and the rule's
`Support` equals that itemset's `Support`. -/
theorem claim_C7_rule_partition (d : Dataset) (hinv : DatasetInv d) (q : ℚ)
    (hq0 : 0 < q) (hq1 : q ≤ 1) (ml : Int) (hml : 1 ≤ ml) (mc : GF) :
    ∀ rule ∈ GenerateAssociationRules (FindFrequentItemsets d (GF.fin q) ml) mc,
      rule.Antecedent ≠ [] ∧ rule.Consequent ≠ [] ∧
        (∀ x ∈ rule.Antecedent, x ∉ rule.Consequent) ∧
        ∃ F ∈ FindFrequentItemsets d (GF.fin q) ml,
          (∀ x, (x ∈ rule.Antecedent ∨ x ∈ rule.Consequent) ↔ x ∈ F.Items) ∧
            rule.Support = F.Support := by
  intro rule hr
  obtain ⟨it, hit, hrit⟩ := mem_generateRules hr
  obtain ⟨hlen, a, asup, csup, ha, h0, hfull, _, _, _, hrule⟩ := mem_rulesForItemset hrit
  have hasub : a.Sublist it.Items := generateAllSubsets_sublist ha
  have hwfit := (findFrequent_wf hinv (GF.fin q) ml).1 it hit
  have hnodup : it.Items.Nodup := hwfit.1.nodup
  have hane : a ≠ [] := by
    intro h
    rw [h] at h0
    exact h0 rfl
  have halt : a.length < it.Items.length := lt_of_le_of_ne hasub.length_le hfull
  have hant : rule.Antecedent = a := by rw [hrule]; rfl
  have hcons : rule.Consequent = difference it.Items a := by rw [hrule]; rfl
  have hsupp : rule.Support = it.Support := by rw [hrule]; rfl
  refine ⟨by rw [hant]; exact hane,
    by rw [hcons]; exact difference_ne_nil hnodup halt, ?_, it, hit, ?_, hsupp⟩
  · intro x hxa hxc
    rw [hcons] at hxc
    unfold difference at hxc
    rw [List.mem_filter] at hxc
    rw [hant] at hxa
    have := hxc.2
    simp only [decide_eq_true_eq] at this
    exact this (by simpa using hxa)
  · intro x
    rw [hant, hcons]
    constructor
    · rintro (hx | hx)
      · exact hasub.subset hx
      · unfold difference at hx
        exact (List.mem_filter.mp hx).1
    · intro hx
      by_cases hxa : x ∈ a
      · exact Or.inl hxa
      · right
        unfold difference
        rw [List.mem_filter]
        refine ⟨hx, ?_⟩
        simp [hxa]

unseal Rat.mul Rat.inv Rat.add Rat.sub in
/-- C7 witness: the partition invariant for the concrete rule
bread→butter of the example run. -/
theorem claim_C7_witness :
    exRule.Antecedent ≠ [] ∧ exRule.Consequent ≠ [] ∧
      (∀ x ∈ exRule.Antecedent, x ∉ exRule.Consequent) ∧
      ∃ F ∈ FindFrequentItemsets exDataset (GF.fin (1 / 2)) 2,
        (∀ x, (x ∈ exRule.Antecedent ∨ x ∈ exRule.Consequent) ↔ x ∈ F.Items) ∧
          exRule.Support = F.Support :=
  claim_C7_rule_partition exDataset ⟨by decide, by decide⟩ (1 / 2) (by norm_num)
    (by norm_num) 2 (by norm_num) (GF.fin (3 / 5)) exRule (by decide)
